import Mathlib

/-!
Verification of the article extraction-and-ingestion pipeline
(`ingest_html_via_api.py`): a shallow embedding of `extract_article_data`
and `ingest_html_files` together with proofs of the specified properties.

The Python code parses HTML with BeautifulSoup (`html.parser`).  Parsing
itself is library code, so documents are modelled as the already-parsed
element tree (`Node`); the BeautifulSoup operations the source uses
(`find`, `find_all`, `decompose`, `get_text`, attribute lookup) are
embedded as Lean functions over that tree, following BeautifulSoup's
documented semantics for the `html.parser` builder (in particular, since
version 4.9 `get_text()` does not consider the contents of `script`,
`style` and `template` tags to be text).
-/

namespace IngestPipeline

/-- Python's notion of whitespace, as used by `str.strip()`, `str.split()`
and the regex class `\s` on `str` (Unicode whitespace). -/
def pyIsSpace (c : Char) : Bool :=
  c == ' ' || c == '\t' || c == '\n' || c == '\r' || c == '\x0b' || c == '\x0c' ||
  (0x1c ≤ c.toNat && c.toNat ≤ 0x1f) || c.toNat == 0x85 || c.toNat == 0xa0 ||
  c.toNat == 0x1680 || (0x2000 ≤ c.toNat && c.toNat ≤ 0x200a) ||
  c.toNat == 0x2028 || c.toNat == 0x2029 || c.toNat == 0x202f ||
  c.toNat == 0x205f || c.toNat == 0x3000

/-- Python `str.strip()` on a list of characters: remove leading and
trailing whitespace. -/
def pyStripL (l : List Char) : List Char :=
  (l.dropWhile pyIsSpace).rdropWhile pyIsSpace

/-- Python `str.strip()`. -/
def pyStrip (s : String) : String :=
  String.mk (pyStripL s.data)

/-- Auxiliary for `pySplitWS`: accumulate the current (reversed) token. -/
def pySplitWSAux : List Char → List Char → List String
  | [], acc => if acc.isEmpty then [] else [String.mk acc.reverse]
  | c :: rest, acc =>
    if pyIsSpace c then
      if acc.isEmpty then pySplitWSAux rest []
      else String.mk acc.reverse :: pySplitWSAux rest []
    else pySplitWSAux rest (c :: acc)

/-- Python `str.split()` with no argument: split on runs of whitespace,
discarding empty tokens. -/
def pySplitWS (s : String) : List String :=
  pySplitWSAux s.data []

/-- Does `pat` occur as a contiguous sublist of the list?  (Python
`pat in s` / `re.search` of a literal pattern.) -/
def hasSub (pat : List Char) : List Char → Bool
  | [] => List.isPrefixOf pat []
  | l@(_ :: rest) => List.isPrefixOf pat l || hasSub pat rest

/-- Substring test on strings. -/
def strHasSub (s pat : String) : Bool :=
  hasSub pat.data s.data

/-- ASCII-lowercasing character comparison, modelling how the regex flag
`(?i)` matches the ASCII letters of a literal pattern.  (Full Unicode case
folding of exotic letters is not modelled; the patterns in the source are
ASCII.) -/
def lowerEq (c d : Char) : Bool :=
  c.toLower == d.toLower

/-- Case-insensitive prefix test (pattern given already lowercased). -/
def ciIsPrefix : List Char → List Char → Bool
  | [], _ => true
  | _ :: _, [] => false
  | p :: ps, c :: cs => lowerEq c p && ciIsPrefix ps cs

/-! ## The parsed document tree

`Node` models the element tree BeautifulSoup produces from
`BeautifulSoup(html_content, 'html.parser')`: elements carry a (lowercased)
tag name, an attribute list, and children; leaves are text nodes.  The
whole document is the root element, tag `[document]`. -/

/-- A node of the parsed document tree. -/
inductive Node where
  | text : String → Node
  | elem : String → List (String × String) → List Node → Node
deriving Repr

/-- Attribute lookup, modelling `tag.get(key)` (first binding wins, as in a
parsed attribute dict). -/
def getAttr (attrs : List (String × String)) (key : String) : Option String :=
  (attrs.find? (fun kv => kv.1 == key)).map (fun kv => kv.2)

/-- Tag name of an element node (text nodes have none). -/
def Node.tagName : Node → Option String
  | .text _ => none
  | .elem t _ _ => some t

/-- Attributes of an element node. -/
def Node.attrs : Node → List (String × String)
  | .text _ => []
  | .elem _ a _ => a

mutual

/-- `soup.find(...)`: the first descendant (document order, the node itself
excluded) satisfying the predicate. -/
def findDesc (p : Node → Bool) : Node → Option Node
  | .text _ => none
  | .elem _ _ cs => findInList p cs

/-- Search a forest in document order: each node is tested before its own
descendants. -/
def findInList (p : Node → Bool) : List Node → Option Node
  | [] => none
  | c :: rest =>
    match (if p c then some c else findDesc p c) with
    | some r => some r
    | none => findInList p rest

end

mutual

/-- `decompose()` applied to every matching descendant found by
`find_all(...)`: remove every maximal matching subtree.  The node
`find_all` was called on is itself never removed. -/
def removeDesc (p : Node → Bool) : Node → Node
  | .text s => .text s
  | .elem t a cs => .elem t a (removeList p cs)

/-- Remove matching subtrees from a forest. -/
def removeList (p : Node → Bool) : List Node → List Node
  | [] => []
  | c :: rest => (if p c then [] else [removeDesc p c]) ++ removeList p rest

end

/-- Tags whose direct text content BeautifulSoup (html.parser builder,
version ≥ 4.9) stores as `Script`/`Stylesheet`/`TemplateString` rather
than `NavigableString`, so `get_text()` does not report it. -/
def stringContainerTags : List String := ["script", "style", "template"]

mutual

/-- All strings of a node, in document order, as reported by
BeautifulSoup's `get_text` machinery: text directly inside `script`,
`style` or `template` elements is not considered text. -/
def nodeStrings : Node → List String
  | .text s => [s]
  | .elem t _ cs => childStrings t cs

/-- Strings of a forest of children whose parent has the given tag. -/
def childStrings (parentTag : String) : List Node → List String
  | [] => []
  | .text s :: rest =>
    (if stringContainerTags.contains parentTag then [] else [s]) ++
      childStrings parentTag rest
  | .elem t a cs :: rest => nodeStrings (.elem t a cs) ++ childStrings parentTag rest

end

/-- `tag.get_text()` with no arguments: concatenation of all strings. -/
def getTextPlain (n : Node) : String :=
  String.join (nodeStrings n)

/-- `tag.get_text(separator='\n', strip=True)`: each string stripped,
empty results dropped, joined with the separator. -/
def getTextSepStrip (n : Node) : String :=
  String.intercalate "\n" (((nodeStrings n).map pyStrip).filter (fun s => !s.isEmpty))

/-! ## Element predicates used by the extractor's queries -/

/-- Is this an element with the given tag name? -/
def isTagB (t : String) (n : Node) : Bool :=
  match n with
  | .text _ => false
  | .elem tag _ _ => tag == t

/-- `soup.find('time', datetime=True)`: a `time` element carrying a
`datetime` attribute (any value). -/
def isTimeWithDatetime (n : Node) : Bool :=
  match n with
  | .text _ => false
  | .elem tag attrs _ => tag == "time" && (getAttr attrs "datetime").isSome

/-- `soup.find('link', rel='canonical')`: `rel` is a multi-valued
attribute, and a string query matches when it equals one of the
space-separated tokens (or the whole joined value, which the token test
subsumes). -/
def isCanonicalLink (n : Node) : Bool :=
  match n with
  | .text _ => false
  | .elem tag attrs _ =>
    tag == "link" &&
      (match getAttr attrs "rel" with
       | none => false
       | some v => (pySplitWS v).contains "canonical")

/-- Regex search of a plain pattern against a multi-valued `class`
attribute: BeautifulSoup tries each whitespace-separated class token and
then the tokens rejoined with single spaces; `re.search` of a literal is
substring containment. -/
def classSearch (pat : String) (attrs : List (String × String)) : Bool :=
  match getAttr attrs "class" with
  | none => false
  | some v =>
    let toks := pySplitWS v
    toks.any (fun t => strHasSub t pat) ||
      strHasSub (String.intercalate " " toks) pat

/-- `soup.find('div', class_=re.compile(r'entry-content'))`. -/
def isEntryContentDiv (n : Node) : Bool :=
  match n with
  | .text _ => false
  | .elem tag attrs _ => tag == "div" && classSearch "entry-content" attrs

/-- `find_all(['script', 'style', 'nav', 'aside'])`. -/
def isUnwantedTag (n : Node) : Bool :=
  match n with
  | .text _ => false
  | .elem tag _ _ =>
    tag == "script" || tag == "style" || tag == "nav" || tag == "aside"

/-- `find_all(class_=re.compile(r'related|jp-relatedposts'))`: either
alternative of the pattern found in the `class` attribute. -/
def isRelatedClass (n : Node) : Bool :=
  match n with
  | .text _ => false
  | .elem _ attrs _ =>
    classSearch "related" attrs || classSearch "jp-relatedposts" attrs

/-! ## Title cleaning

`re.sub(r'\s*[–-]\s*Stratechery by Ben Thompson\s*$', '', title)` followed
by `title.strip()`.  The pattern is anchored at the end of the string, so
the substitution deletes the tail starting at the leftmost position from
which the whole remaining text matches
whitespace, one dash (en dash or hyphen), whitespace, the literal
attribution, trailing whitespace.  Note the pattern has no `re.IGNORECASE`
flag: the attribution literal is matched case-sensitively. -/

/-- The attribution literal of the title pattern. -/
def stratLit : List Char := "Stratechery by Ben Thompson".data

/-- The dash-onward part of the title pattern,
`[–-]\s*Stratechery by Ben Thompson\s*`, applied to the tail left after
the leading `\s*` is consumed. -/
def spmCore : List Char → Bool
  | [] => false
  | d :: rest =>
    (d == '–' || d == '-') &&
      (let r := rest.dropWhile pyIsSpace
       stratLit.isPrefixOf r && (r.drop stratLit.length).all pyIsSpace)

/-- Does the whole list match `\s*[–-]\s*Stratechery by Ben Thompson\s*`
(to be used on end-anchored tails)? -/
def suffixPatMatches (l : List Char) : Bool :=
  spmCore (l.dropWhile pyIsSpace)

/-- Delete from the leftmost position whose tail matches the end-anchored
pattern (identity when no position matches), i.e. the `re.sub` above. -/
def delSuffixPat : List Char → List Char
  | [] => []
  | c :: rest =>
    if suffixPatMatches (c :: rest) then [] else c :: delSuffixPat rest

/-- The whole title cleanup of the `<title>` branch: the substitution
followed by `strip()`. -/
def cleanTitle (s : String) : String :=
  pyStrip (String.mk (delSuffixPat s.data))

/-- The fallback of the `else` branch:
`filename.replace('.html', '').replace(' – Stratechery by Ben Thompson', '')`
(plain global replacement of the exact literals; en dash only, no strip). -/
def fallbackTitle (filename : String) : String :=
  (filename.replace ".html" "").replace " – Stratechery by Ben Thompson" ""

/-! ## Body text cleanup -/

/-- Emit a pending run of `k` newlines as `re.sub(r'\n{3,}', '\n\n')`
leaves it: runs of three or more become exactly two. -/
def emitNL (k : Nat) : List Char :=
  if 3 ≤ k then ['\n', '\n'] else List.replicate k '\n'

/-- Scan the text tracking the length of the current newline run. -/
def collapseNLAux : Nat → List Char → List Char
  | k, [] => emitNL k
  | k, c :: rest =>
    if c == '\n' then collapseNLAux (k + 1) rest
    else emitNL k ++ c :: collapseNLAux 0 rest

/-- `re.sub(r'\n{3,}', '\n\n', text)`. -/
def collapseNL (l : List Char) : List Char :=
  collapseNLAux 0 l

/-- The lowercased marker of the footer pattern. -/
def shareLit : List Char := "share this:".data

/-- `re.sub(r'(?i)share this:.*$', '', text, flags=re.DOTALL)`: delete
from the first case-insensitive occurrence of "share this:" through the
end of the text. -/
def truncShare : List Char → List Char
  | [] => []
  | c :: rest =>
    if ciIsPrefix shareLit (c :: rest) then [] else c :: truncShare rest

/-- The complete text cleanup applied to the extracted body text:
collapse newline runs, truncate at the footer marker, strip. -/
def cleanBody (s : String) : String :=
  pyStrip (String.mk (truncShare (collapseNL s.data)))

/-! ## SHA-256 (`hashlib.sha256(...).hexdigest()`)

A byte-level implementation of FIPS 180-4 SHA-256 over `List Nat`
(each entry a byte), with 32-bit words as `Nat` reduced mod `2 ^ 32`. -/

/-- UTF-8 encoding of one code point. -/
def utf8EncodeChar (c : Char) : List Nat :=
  let n := c.toNat
  if n < 0x80 then [n]
  else if n < 0x800 then
    [0xc0 + n / 0x40, 0x80 + n % 0x40]
  else if n < 0x10000 then
    [0xe0 + n / 0x1000, 0x80 + n / 0x40 % 0x40, 0x80 + n % 0x40]
  else
    [0xf0 + n / 0x40000, 0x80 + n / 0x1000 % 0x40,
     0x80 + n / 0x40 % 0x40, 0x80 + n % 0x40]

/-- `s.encode('utf-8')`. -/
def utf8Encode (s : String) : List Nat :=
  s.data.flatMap utf8EncodeChar

/-- 2 ^ 32. -/
def w32 : Nat := 4294967296

/-- Right rotation of a 32-bit word, arithmetically. -/
def rotr (k x : Nat) : Nat :=
  x / 2 ^ k + x % 2 ^ k * 2 ^ (32 - k)

/-- Bitwise complement of a 32-bit word. -/
def not32 (x : Nat) : Nat := w32 - 1 - x

/-- The 64 round constants of FIPS 180-4 (the fractional parts of the
cube roots of the first 64 primes), written in decimal. -/
def shaK : List Nat :=
  [1116352408, 1899447441, 3049323471, 3921009573, 961987163,
   1508970993, 2453635748, 2870763221, 3624381080, 310598401,
   607225278, 1426881987, 1925078388, 2162078206, 2614888103,
   3248222580, 3835390401, 4022224774, 264347078, 604807628,
   770255983, 1249150122, 1555081692, 1996064986, 2554220882,
   2821834349, 2952996808, 3210313671, 3336571891, 3584528711,
   113926993, 338241895, 666307205, 773529912, 1294757372,
   1396182291, 1695183700, 1986661051, 2177026350, 2456956037,
   2730485921, 2820302411, 3259730800, 3345764771, 3516065817,
   3600352804, 4094571909, 275423344, 430227734, 506948616,
   659060556, 883997877, 958139571, 1322822218, 1537002063,
   1747873779, 1955562222, 2024104815, 2227730452, 2361852424,
   2428436474, 2756734187, 3204031479, 3329325298]

/-- The initial hash value of FIPS 180-4, in decimal. -/
def shaH0 : List Nat :=
  [1779033703, 3144134277, 1013904242, 2773480762, 1359893119,
   2600822924, 528734635, 1541459225]

/-- Big-endian bytes of a number, fixed width. -/
def beBytes : Nat → Nat → List Nat
  | 0, _ => []
  | k + 1, n => n / 2 ^ (8 * k) % 256 :: beBytes k n

/-- Message padding: `0x80`, zeros to 56 mod 64, the bit length as eight
big-endian bytes. -/
def shaPad (msg : List Nat) : List Nat :=
  let len := msg.length
  let zeros := (119 - len % 64) % 64
  msg ++ [0x80] ++ List.replicate zeros 0 ++ beBytes 8 (len * 8 % 2 ^ 64)

/-- Split into 64-byte blocks; structural recursion on a fuel bounded by
the length (each step consumes at least one byte). -/
def chunks64Fuel : Nat → List Nat → List (List Nat)
  | 0, _ => []
  | fuel + 1, l =>
    if l.isEmpty then []
    else l.take 64 :: chunks64Fuel fuel (l.drop 64)

/-- Split into 64-byte blocks. -/
def chunks64 (l : List Nat) : List (List Nat) :=
  chunks64Fuel l.length l

/-- Big-endian 32-bit words of a block. -/
def bytesToWords : List Nat → List Nat
  | b0 :: b1 :: b2 :: b3 :: rest =>
    (b0 * 0x1000000 + b1 * 0x10000 + b2 * 0x100 + b3) :: bytesToWords rest
  | _ => []

/-- Small sigma 0. -/
def ssig0 (x : Nat) : Nat := (rotr 7 x ^^^ rotr 18 x) ^^^ x / 2 ^ 3

/-- Small sigma 1. -/
def ssig1 (x : Nat) : Nat := (rotr 17 x ^^^ rotr 19 x) ^^^ x / 2 ^ 10

/-- Big sigma 0. -/
def bsig0 (x : Nat) : Nat := (rotr 2 x ^^^ rotr 13 x) ^^^ rotr 22 x

/-- Big sigma 1. -/
def bsig1 (x : Nat) : Nat := (rotr 6 x ^^^ rotr 11 x) ^^^ rotr 25 x

/-- Extend 16 words to the 64-word message schedule.  `ws` holds the
schedule so far, newest first. -/
def extendSchedule (ws : List Nat) : Nat → List Nat
  | 0 => ws.reverse
  | k + 1 =>
    let get := fun i => ws.getD (i - 1) 0
    let next :=
      (ssig1 (get 2) + get 7 + ssig0 (get 15) + get 16) % w32
    extendSchedule (next :: ws) k

/-- The 64-word message schedule of one block. -/
def schedule (block : List Nat) : List Nat :=
  extendSchedule (bytesToWords block).reverse 48

/-- The eight working variables. -/
structure Hash8 where
  a : Nat
  b : Nat
  c : Nat
  d : Nat
  e : Nat
  f : Nat
  g : Nat
  h : Nat
deriving Repr

/-- One compression round. -/
def shaRound (st : Hash8) (kw : Nat × Nat) : Hash8 :=
  let ch := st.e &&& st.f ^^^ not32 st.e &&& st.g
  let maj := (st.a &&& st.b ^^^ st.a &&& st.c) ^^^ st.b &&& st.c
  let t1 := (st.h + bsig1 st.e + ch + kw.1 + kw.2) % w32
  let t2 := (bsig0 st.a + maj) % w32
  ⟨(t1 + t2) % w32, st.a, st.b, st.c, (st.d + t1) % w32, st.e, st.f, st.g⟩

/-- Compress one block into the running hash (eight words). -/
def shaCompress (hs : List Nat) (block : List Nat) : List Nat :=
  let get := fun i => hs.getD i 0
  let st0 : Hash8 :=
    ⟨get 0, get 1, get 2, get 3, get 4, get 5, get 6, get 7⟩
  let st := (shaK.zip (schedule block)).foldl shaRound st0
  [(get 0 + st.a) % w32, (get 1 + st.b) % w32, (get 2 + st.c) % w32,
   (get 3 + st.d) % w32, (get 4 + st.e) % w32, (get 5 + st.f) % w32,
   (get 6 + st.g) % w32, (get 7 + st.h) % w32]

/-- The 32 digest bytes of a byte message. -/
def sha256Bytes (msg : List Nat) : List Nat :=
  let final := (chunks64 (shaPad msg)).foldl shaCompress shaH0
  final.flatMap (beBytes 4)

/-- One lowercase hex digit. -/
def hexDigit (n : Nat) : Char :=
  "0123456789abcdef".data.getD n 'x'

/-- Two hex digits of a byte. -/
def hexByte (b : Nat) : List Char :=
  [hexDigit (b / 16 % 16), hexDigit (b % 16)]

/-- `hashlib.sha256(msg).hexdigest()`. -/
def sha256Hex (msg : List Nat) : String :=
  String.mk ((sha256Bytes msg).flatMap hexByte)

/-! ## Publication date -/

/-- Are all characters ASCII digits? -/
def allDigits (l : List Char) : Bool :=
  l.all (fun c => c.isDigit)

/-- Numeric value of a digit string. -/
def digitsVal (l : List Char) : Nat :=
  l.foldl (fun n c => n * 10 + (c.toNat - 48)) 0

/-- A two-digit group below the bound. -/
def twoDigitsLt (a b : Char) (bound : Nat) : Bool :=
  a.isDigit && b.isDigit && digitsVal [a, b] < bound

/-- Valid `±HH:MM` offset tail. -/
def isOffsetTail : List Char → Bool
  | [sgn, h1, h2, ':', m1, m2] =>
    (sgn == '+' || sgn == '-') && twoDigitsLt h1 h2 24 && twoDigitsLt m1 m2 60
  | _ => false

/-- Valid `HH:MM:SS` followed by an optional offset. -/
def isTimeTail : List Char → Bool
  | h1 :: h2 :: ':' :: m1 :: m2 :: ':' :: s1 :: s2 :: rest =>
    twoDigitsLt h1 h2 24 && twoDigitsLt m1 m2 60 && twoDigitsLt s1 s2 60 &&
      (rest.isEmpty || isOffsetTail rest)
  | _ => false

/-- Valid `YYYY-MM-DD` followed by an optional `T`-separated time. -/
def isIsoDatetime : List Char → Bool
  | y1 :: y2 :: y3 :: y4 :: '-' :: m1 :: m2 :: '-' :: d1 :: d2 :: rest =>
    allDigits [y1, y2, y3, y4] &&
      m1.isDigit && m2.isDigit &&
      1 ≤ digitsVal [m1, m2] && digitsVal [m1, m2] ≤ 12 &&
      d1.isDigit && d2.isDigit &&
      1 ≤ digitsVal [d1, d2] && digitsVal [d1, d2] ≤ 31 &&
      (rest.isEmpty || (rest.headD ' ' == 'T' && isTimeTail (rest.tail)))
  | _ => false

/-- Models the standard-library composition
`datetime.fromisoformat(s).isoformat()` wrapped in the source's
`try`/`except`: the `datetime` module is library code, so the accepted
grammar is simplified to the common `YYYY-MM-DD[THH:MM:SS[±HH:MM]]`
forms (with basic range checks); an accepted bare date renders with an
explicit midnight time, any other accepted string renders as itself, and
a rejected string yields `none` (the `except` branch leaves the date
`None`).  No claim depends on the internals of this parser. -/
def pyParseIsoThenFormat (s : String) : Option String :=
  let l := s.data
  if isIsoDatetime l then
    if l.length == 10 then some (s ++ "T00:00:00") else some s
  else none

/-! ## The extractor (`extract_article_data`) -/

/-- The record `extract_article_data` returns.  `publication_date` is
`pub_date.isoformat() if pub_date else None`; `canonical_url` is
`canonical.get('href') if canonical else ''`, hence `none` exactly when a
canonical link exists but carries no `href`. -/
structure ArticleRecord where
  title : String
  publication_date : Option String
  cleaned_text : String
  raw_html : String
  canonical_url : Option String
  word_count : Nat
  content_hash : String
deriving Repr, DecidableEq

/-- `extract_article_data(html_content, filename)`.  `soup` is the
BeautifulSoup parse of the raw markup string `raw`; parsing itself is
library code, so the function takes the parsed tree together with the raw
string it came from (the raw string is used only for the `raw_html`
field). -/
def extract_article_data (soup : Node) (raw : String) (filename : String) :
    ArticleRecord :=
  let title :=
    match findDesc (isTagB "title") soup with
    | some titleTag => cleanTitle (getTextPlain titleTag)
    | none => fallbackTitle filename
  let pub_date :=
    match findDesc isTimeWithDatetime soup with
    | some timeTag =>
      match getAttr timeTag.attrs "datetime" with
      | some ds => pyParseIsoThenFormat (ds.replace "Z" "+00:00")
      | none => none
    | none => none
  let canonical_url :=
    match findDesc isCanonicalLink soup with
    | some canonical => getAttr canonical.attrs "href"
    | none => some ""
  let body_text :=
    match findDesc isEntryContentDiv soup with
    | some content_div =>
      getTextSepStrip (removeDesc isRelatedClass (removeDesc isUnwantedTag content_div))
    | none =>
      match findDesc (isTagB "article") soup with
      | some article => getTextSepStrip article
      | none => getTextSepStrip soup
  let clean_text := cleanBody body_text
  { title := title
    publication_date := pub_date
    cleaned_text := clean_text
    raw_html := raw
    canonical_url := canonical_url
    word_count := (pySplitWS clean_text).length
    content_hash := sha256Hex (utf8Encode clean_text) }

/-- The parse of the empty input string: a document with no children. -/
def emptyDoc : Node := .elem "[document]" [] []

/-! ## The ingestor (`ingest_html_files`)

The store (the `stratechery_issues` table) is modelled as the list of
inserted records; the two `.eq(...).limit(1).execute()` lookups are
existence queries over that list.  External effects the code observes —
an unreadable file, a store call that raises, an insert accepted without
returned data — are modelled by a per-document behavior record; with the
default behavior every call succeeds, and the insert returns the row. -/

/-- Outcome of one document: which of the three counters it increments. -/
inductive Outcome where
  | successful
  | skipped
  | failed
deriving Repr, DecidableEq

/-- Result of `open(file_path).read()`: the parsed document plus the raw
markup text, or an I/O error (an unreadable or undecodable file). -/
inductive ReadResult where
  | ok : Node → String → ReadResult
  | ioError : ReadResult

/-- One enumerated file: its name and what reading it produces. -/
structure Doc where
  name : String
  read : ReadResult

/-- How the store responds to the insert call. -/
inductive InsertB where
  | raise
  | noData
  | okWithId
deriving Repr, DecidableEq

/-- External behavior of the per-document store calls.  The default is
the benign behavior: no call raises and the insert returns the row. -/
structure DocBehavior where
  hashQueryRaises : Bool := false
  titleQueryRaises : Bool := false
  insertB : InsertB := .okWithId

/-- The benign behavior. -/
def benign : DocBehavior := {}

/-- A store operation issued by the loop body, recorded to observe which
calls are made and in which order. -/
inductive StoreOp where
  | queryHash : String → StoreOp
  | queryTitle : String → StoreOp
  | insert : ArticleRecord → StoreOp
deriving DecidableEq

/-- The `content_hash` duplicate query: does any stored record have this
hash? -/
def hashExists (store : List ArticleRecord) (h : String) : Bool :=
  store.any (fun r => r.content_hash == h)

/-- The `title` duplicate query: does any stored record have this
title? -/
def titleExists (store : List ArticleRecord) (t : String) : Bool :=
  store.any (fun r => r.title == t)

/-- The body of the `for` loop of `ingest_html_files` for one file:
read, extract, duplicate-check by hash then by title, insert; the
enclosing `try`/`except` turns any raised error into a `failed` outcome.
Returns the outcome, the store after the step, and the store calls
issued. -/
def processDoc (b : DocBehavior) (store : List ArticleRecord) (d : Doc) :
    Outcome × List ArticleRecord × List StoreOp :=
  match d.read with
  | .ioError => (.failed, store, [])
  | .ok soup raw =>
    let data := extract_article_data soup raw d.name
    if b.hashQueryRaises then
      (.failed, store, [.queryHash data.content_hash])
    else if hashExists store data.content_hash then
      (.skipped, store, [.queryHash data.content_hash])
    else if b.titleQueryRaises then
      (.failed, store, [.queryHash data.content_hash, .queryTitle data.title])
    else if titleExists store data.title then
      (.skipped, store, [.queryHash data.content_hash, .queryTitle data.title])
    else
      match b.insertB with
      | .raise =>
        (.failed, store,
         [.queryHash data.content_hash, .queryTitle data.title, .insert data])
      | .noData =>
        (.failed, store,
         [.queryHash data.content_hash, .queryTitle data.title, .insert data])
      | .okWithId =>
        (.successful, store ++ [data],
         [.queryHash data.content_hash, .queryTitle data.title, .insert data])

/-- The three counters of the batch summary. -/
structure Counts where
  successful : Nat
  skipped : Nat
  failed : Nat
deriving Repr, DecidableEq

/-- The loop of `ingest_html_files`, carrying the three counters exactly
as the source increments them, left to right over the enumerated files. -/
def ingestLoop (c : Counts) (store : List ArticleRecord)
    : List (Doc × DocBehavior) → Counts × List ArticleRecord
  | [] => (c, store)
  | (d, b) :: rest =>
    match processDoc b store d with
    | (.successful, store2, _) =>
      ingestLoop { c with successful := c.successful + 1 } store2 rest
    | (.skipped, store2, _) =>
      ingestLoop { c with skipped := c.skipped + 1 } store2 rest
    | (.failed, store2, _) =>
      ingestLoop { c with failed := c.failed + 1 } store2 rest

/-- `ingest_html_files(directory)`: process the enumerated files in
order, starting from zeroed counters, and return the value the source
returns — `return successful`, the successful counter alone.  The
directory enumeration is I/O, so the function takes the document list
(with each document's external behavior) and the initial store. -/
def ingest_html_files (store : List ArticleRecord)
    (docs : List (Doc × DocBehavior)) : Nat :=
  (ingestLoop ⟨0, 0, 0⟩ store docs).1.successful

/-- Structural restatement of the loop: the outcome tally of a batch,
computed by recursion on the document list (same counts as `ingestLoop`
from zero, proved below). -/
def runBatch (store : List ArticleRecord) :
    List (Doc × DocBehavior) → Counts × List ArticleRecord
  | [] => (⟨0, 0, 0⟩, store)
  | (d, b) :: rest =>
    let step := processDoc b store d
    let next := runBatch step.2.1 rest
    match step.1 with
    | .successful => ({ next.1 with successful := next.1.successful + 1 }, next.2)
    | .skipped => ({ next.1 with skipped := next.1.skipped + 1 }, next.2)
    | .failed => ({ next.1 with failed := next.1.failed + 1 }, next.2)

/-! ## Basic facts about the loop -/

/-- A concrete article page. -/
def wSoup : Node :=
  .elem "[document]" []
    [.elem "head" []
      [.elem "title" [] [.text "A Day – Stratechery by Ben Thompson"],
       .elem "link" [("rel", "canonical"), ("href", "https://example.com/a")] []],
     .elem "body" []
      [.elem "article" [] [.text "Body text here.\nMore text."]]]

/-- The page as an enumerated, readable file. -/
def wDoc : Doc := ⟨"a.html", .ok wSoup "<html>raw</html>"⟩

/-- Its extracted record. -/
def wRec : ArticleRecord := extract_article_data wSoup "<html>raw</html>" "a.html"

/-- A document that is an exact duplicate of content already in the store
when the batch starts (readable, hash query answered, hash already
present). -/
def dupAtStart (store : List ArticleRecord) (x : Doc × DocBehavior) : Bool :=
  match x.1.read with
  | .ioError => false
  | .ok soup raw =>
    !x.2.hashQueryRaises &&
      hashExists store (extract_article_data soup raw x.1.name).content_hash

/-- A document whose read raises. -/
def isUnreadable (x : Doc × DocBehavior) : Bool :=
  match x.1.read with
  | .ioError => true
  | .ok _ _ => false

/-- Two documents with different markup but identical cleaned text. -/
def c3SoupA : Node :=
  .elem "[document]" [] [.elem "article" [] [.text "Hello world"]]

/-- The same text with no article wrapper (whole-document fallback). -/
def c3SoupB : Node :=
  .elem "[document]" [] [.text "  Hello world  "]

/-- A document with no recognizable structure at all. -/
def c4Soup : Node := .elem "[document]" [] [.text "just some garbage"]

/-- Characters matched by the pattern's dash class `[–-]`. -/
def isDashChar (c : Char) : Bool := c == '–' || c == '-'

/-- No dash characters anywhere in the string. -/
def dashFree (s : String) : Bool := s.data.all (fun c => !isDashChar c)

/-- The dash-onward part of the spec's reading of the title rule, with
the attribution letters compared case-insensitively. -/
def ciSpmCore : List Char → Bool
  | [] => false
  | d :: rest =>
    (d == '–' || d == '-') &&
      (let r := rest.dropWhile pyIsSpace
       ciIsPrefix "stratechery by ben thompson".data r &&
         (r.drop 27).all pyIsSpace)

/-- Case-insensitive variant of the end-anchored pattern. -/
def ciSuffixPatMatches (l : List Char) : Bool :=
  ciSpmCore (l.dropWhile pyIsSpace)

/-- Case-insensitive variant of the deletion. -/
def ciDelSuffixPat : List Char → List Char
  | [] => []
  | c :: rest =>
    if ciSuffixPatMatches (c :: rest) then [] else c :: ciDelSuffixPat rest

/-- Modelled from the spec's words, for comparison with the code: strip
the trailing site-attribution suffix case- and dash-insensitively, then
trim surrounding whitespace. -/
def specTitleStrip (s : String) : String :=
  pyStrip (String.mk (ciDelSuffixPat s.data))

/-- A title element whose attribution suffix differs from the code's
literal only in letter case. -/
def c5Soup : Node :=
  .elem "[document]" []
    [.elem "title" [] [.text "X – stratechery by ben thompson"]]

/-- The page with the spec's example title. -/
def c5TitleSoup : Node :=
  .elem "[document]" []
    [.elem "title" [] [.text "Antitrust in 2024 – Stratechery by Ben Thompson"]]

/-- Case-insensitive occurrence test, for the footer marker. -/
def ciHasSub (pat : List Char) : List Char → Bool
  | [] => ciIsPrefix pat []
  | l@(_ :: rest) => ciIsPrefix pat l || ciHasSub pat rest

/-- An article-only page whose body text carries an internal blank run. -/
def c6Art : Node := .elem "article" [] [.text "A\n\n\n\nB"]

/-- The page around it. -/
def c6ArtSoup : Node := .elem "[document]" [] [c6Art]

/-- A page whose entry-content container holds the spec's example body. -/
def c6Soup : Node :=
  .elem "[document]" []
    [.elem "div" [("class", "entry-content")]
      [.text "One paragraph.\n\n\n\nShare this:\nTwitter\nFacebook"]]

/-- Body children exercising every element class the extractor treats
specially: visible text, a style sheet, a nav, an aside, and a
related-class section. -/
def c10Children : List Node :=
  [.text "A",
   .elem "style" [] [.text "hidden style"],
   .elem "nav" [] [.text "N"],
   .elem "aside" [] [.text "S"],
   .elem "div" [("class", "related-posts")] [.text "R"]]

/-- The children inside an entry-content container. -/
def c10Entry : Node := .elem "div" [("class", "entry-content")] c10Children

/-- The same children inside a bare article element. -/
def c10Art : Node := .elem "article" [] c10Children

/-- Page taking the entry-content branch. -/
def c10EntrySoup : Node := .elem "[document]" [] [c10Entry]

/-- Page taking the article fallback branch. -/
def c10FallbackSoup : Node := .elem "[document]" [] [c10Art]

/-- The source's counter-carrying loop computes the structural tally:
running totals just add up. -/
theorem ingestLoop_eq_runBatch (docs : List (Doc × DocBehavior)) :
    ∀ (c : Counts) (store : List ArticleRecord),
      ingestLoop c store docs =
        (⟨c.successful + (runBatch store docs).1.successful,
          c.skipped + (runBatch store docs).1.skipped,
          c.failed + (runBatch store docs).1.failed⟩,
         (runBatch store docs).2) := by
  induction docs with
  | nil => intro c store; simp [ingestLoop, runBatch]
  | cons x rest ih =>
    intro c store
    obtain ⟨d, b⟩ := x
    simp only [ingestLoop, runBatch]
    cases hpd : processDoc b store d with
    | mk o s2 =>
      obtain ⟨store2, tr⟩ := s2
      cases o <;> simp [ih, Counts.mk.injEq] <;> omega

/-- Each document contributes to exactly one of the three counters. -/
theorem runBatch_sum (docs : List (Doc × DocBehavior)) :
    ∀ store : List ArticleRecord,
      (runBatch store docs).1.successful + (runBatch store docs).1.skipped +
          (runBatch store docs).1.failed = docs.length := by
  induction docs with
  | nil => intro store; simp [runBatch]
  | cons x rest ih =>
    intro store
    obtain ⟨d, b⟩ := x
    simp only [runBatch]
    cases hpd : processDoc b store d with
    | mk o s2 =>
      obtain ⟨store2, tr⟩ := s2
      have hs := ih store2
      cases o <;> simp <;> omega

/-- A step only ever appends to the store (a skip or failure leaves it
unchanged, a successful insert appends the record). -/
theorem processDoc_store_ext (b : DocBehavior) (store : List ArticleRecord)
    (d : Doc) : ∃ ext, (processDoc b store d).2.1 = store ++ ext := by
  cases hr : d.read with
  | ioError => refine ⟨[], ?_⟩; simp [processDoc, hr]
  | ok soup raw =>
    simp only [processDoc, hr]
    by_cases h1 : b.hashQueryRaises
    · refine ⟨[], ?_⟩; simp [h1]
    · by_cases h2 : hashExists store (extract_article_data soup raw d.name).content_hash
      · refine ⟨[], ?_⟩; simp [h1, h2]
      · by_cases h3 : b.titleQueryRaises
        · refine ⟨[], ?_⟩; simp [h1, h2, h3]
        · by_cases h4 : titleExists store (extract_article_data soup raw d.name).title
          · refine ⟨[], ?_⟩; simp [h1, h2, h3, h4]
          · cases hb : b.insertB
            · refine ⟨[], ?_⟩; simp [h1, h2, h3, h4, hb]
            · refine ⟨[], ?_⟩; simp [h1, h2, h3, h4, hb]
            · refine ⟨[extract_article_data soup raw d.name], ?_⟩
              simp [h1, h2, h3, h4, hb]

/-- The hash duplicate query is monotone under store growth. -/
theorem hashExists_mono (store ext : List ArticleRecord) (h : String)
    (hx : hashExists store h = true) : hashExists (store ++ ext) h = true := by
  simp only [hashExists, List.any_append] at hx ⊢
  simp [hx]

/-! ## Concrete fixtures used by witnesses -/

/-! ## C1 — uniqueness invariant -/

/-- C1: when the store calls do not raise, a document whose extracted
record matches a stored `content_hash` — or, failing that, a stored
`title` — is counted as skipped, the store is left unchanged (the record
is never inserted), the hash lookup is issued first, and the title lookup
is issued only when the hash finds no match. -/
theorem claim_C1_uniqueness (b : DocBehavior) (store : List ArticleRecord)
    (d : Doc) (soup : Node) (raw : String)
    (hread : d.read = .ok soup raw)
    (hq : b.hashQueryRaises = false) (tq : b.titleQueryRaises = false) :
    (hashExists store (extract_article_data soup raw d.name).content_hash = true →
      processDoc b store d =
        (.skipped, store,
         [.queryHash (extract_article_data soup raw d.name).content_hash])) ∧
    (hashExists store (extract_article_data soup raw d.name).content_hash = false →
      titleExists store (extract_article_data soup raw d.name).title = true →
      processDoc b store d =
        (.skipped, store,
         [.queryHash (extract_article_data soup raw d.name).content_hash,
          .queryTitle (extract_article_data soup raw d.name).title])) := by
  constructor
  · intro hdup
    simp [processDoc, hread, hq, hdup]
  · intro hmiss hdup
    simp [processDoc, hread, hq, hmiss, tq, hdup]

/-- C1 at a concrete store: a stored record with the same hash, then one
with a different hash but the same title. -/
theorem claim_C1_uniqueness_witness :
    processDoc benign [wRec] wDoc =
      (.skipped, [wRec], [.queryHash wRec.content_hash]) ∧
    processDoc benign [{ wRec with content_hash := "x" }] wDoc =
      (.skipped, [{ wRec with content_hash := "x" }],
       [.queryHash wRec.content_hash, .queryTitle wRec.title]) := by
  constructor
  · exact (claim_C1_uniqueness benign [wRec] wDoc wSoup "<html>raw</html>"
      rfl rfl rfl).1 (by decide)
  · exact (claim_C1_uniqueness benign [{ wRec with content_hash := "x" }] wDoc
      wSoup "<html>raw</html>" rfl rfl rfl).2 (by decide) (by decide)

/-! ## C9 — the ingestor's return value -/

/-- C9 (amended): the loop accumulates all three counters over the batch
(the final counter triple is the structural outcome tally), but the
function's return value is the `successful` counter alone. -/
theorem claim_C9_return (store : List ArticleRecord)
    (docs : List (Doc × DocBehavior)) :
    ingest_html_files store docs = (runBatch store docs).1.successful ∧
    (ingestLoop ⟨0, 0, 0⟩ store docs).1 = (runBatch store docs).1 := by
  have h := ingestLoop_eq_runBatch docs ⟨0, 0, 0⟩ store
  constructor
  · simp [ingest_html_files, h]
  · simp [h]

/-- C9 fails as stated: two batches with different skipped/failed tallies
give the same return value, so the returned value does not carry the
counts `{successful, skipped, failed}`. -/
theorem claim_C9_counterexample :
    ingest_html_files [] [(⟨"a.html", .ioError⟩, benign)] =
      ingest_html_files [] [] ∧
    (ingestLoop ⟨0, 0, 0⟩ [] [(⟨"a.html", .ioError⟩, benign)]).1 ≠
      (ingestLoop ⟨0, 0, 0⟩ [] []).1 := by
  constructor
  · rfl
  · decide

/-! ## C2 — idempotence of ingestion -/

/-- C2: with no interfering writers and benign store behavior, a document
whose record is fresh (hash and title unseen) yields exactly one
successful and one skipped outcome across two ingestions — whether the
second happens in the same batch or in a later batch — and the second
ingestion's skip is triggered by the content-hash lookup (it is the only
store call issued). -/
theorem claim_C2_idempotent (store : List ArticleRecord) (d : Doc)
    (soup : Node) (raw : String)
    (hread : d.read = .ok soup raw)
    (hfresh : hashExists store (extract_article_data soup raw d.name).content_hash = false)
    (tfresh : titleExists store (extract_article_data soup raw d.name).title = false) :
    (ingestLoop ⟨0, 0, 0⟩ store [(d, benign), (d, benign)]).1 = ⟨1, 1, 0⟩ ∧
    (ingestLoop ⟨0, 0, 0⟩ store [(d, benign)]).1 = ⟨1, 0, 0⟩ ∧
    (ingestLoop ⟨0, 0, 0⟩ (ingestLoop ⟨0, 0, 0⟩ store [(d, benign)]).2
        [(d, benign)]).1 = ⟨0, 1, 0⟩ ∧
    (processDoc benign
        (store ++ [extract_article_data soup raw d.name]) d).2.2 =
      [.queryHash (extract_article_data soup raw d.name).content_hash] := by
  have h1 : processDoc benign store d =
      (.successful, store ++ [extract_article_data soup raw d.name],
       [.queryHash (extract_article_data soup raw d.name).content_hash,
        .queryTitle (extract_article_data soup raw d.name).title,
        .insert (extract_article_data soup raw d.name)]) := by
    simp [processDoc, hread, benign, hfresh, tfresh]
  have hdup : hashExists
      (store ++ [extract_article_data soup raw d.name])
      (extract_article_data soup raw d.name).content_hash = true := by
    simp [hashExists, List.any_append]
  have h2 : processDoc benign
      (store ++ [extract_article_data soup raw d.name]) d =
      (.skipped, store ++ [extract_article_data soup raw d.name],
       [.queryHash (extract_article_data soup raw d.name).content_hash]) := by
    simp [processDoc, hread, benign, hdup]
  refine ⟨?_, ?_, ?_, ?_⟩
  · simp [ingestLoop, h1, h2]
  · simp [ingestLoop, h1]
  · simp [ingestLoop, h1, h2]
  · simp [h2]

/-- C2 at a concrete document and an empty store. -/
theorem claim_C2_idempotent_witness :
    (ingestLoop ⟨0, 0, 0⟩ [] [(wDoc, benign), (wDoc, benign)]).1 = ⟨1, 1, 0⟩ :=
  (claim_C2_idempotent [] wDoc wSoup "<html>raw</html>" rfl rfl rfl).1

/-! ## C8 — per-document error isolation -/

/-- C8: every raising step (read, hash query, title query, insert) is
caught and counted as failed with the store unchanged; an insert accepted
without returned data is likewise failed (not raised); an insert
returning an identifier is successful; and a failed document does not
stop the loop — processing continues on the remaining documents with only
the failed counter bumped. -/
theorem claim_C8_error_isolation (b : DocBehavior) (store : List ArticleRecord)
    (d : Doc) (soup : Node) (raw : String) (rest : List (Doc × DocBehavior))
    (c : Counts) :
    (d.read = .ioError → processDoc b store d = (.failed, store, [])) ∧
    (d.read = .ok soup raw → b.hashQueryRaises = true →
      processDoc b store d =
        (.failed, store,
         [.queryHash (extract_article_data soup raw d.name).content_hash])) ∧
    (d.read = .ok soup raw → b.hashQueryRaises = false →
      hashExists store (extract_article_data soup raw d.name).content_hash = false →
      b.titleQueryRaises = true →
      processDoc b store d =
        (.failed, store,
         [.queryHash (extract_article_data soup raw d.name).content_hash,
          .queryTitle (extract_article_data soup raw d.name).title])) ∧
    (d.read = .ok soup raw → b.hashQueryRaises = false →
      hashExists store (extract_article_data soup raw d.name).content_hash = false →
      b.titleQueryRaises = false →
      titleExists store (extract_article_data soup raw d.name).title = false →
      b.insertB = .raise →
      (processDoc b store d).1 = .failed ∧ (processDoc b store d).2.1 = store) ∧
    (d.read = .ok soup raw → b.hashQueryRaises = false →
      hashExists store (extract_article_data soup raw d.name).content_hash = false →
      b.titleQueryRaises = false →
      titleExists store (extract_article_data soup raw d.name).title = false →
      b.insertB = .noData →
      (processDoc b store d).1 = .failed ∧ (processDoc b store d).2.1 = store) ∧
    (d.read = .ok soup raw → b.hashQueryRaises = false →
      hashExists store (extract_article_data soup raw d.name).content_hash = false →
      b.titleQueryRaises = false →
      titleExists store (extract_article_data soup raw d.name).title = false →
      b.insertB = .okWithId →
      (processDoc b store d).1 = .successful ∧
      (processDoc b store d).2.1 = store ++ [extract_article_data soup raw d.name]) ∧
    ((processDoc b store d).1 = .failed →
      ingestLoop c store ((d, b) :: rest) =
        ingestLoop { c with failed := c.failed + 1 }
          (processDoc b store d).2.1 rest) := by
  refine ⟨?_, ?_, ?_, ?_, ?_, ?_, ?_⟩
  · intro hr; simp [processDoc, hr]
  · intro hr h1; simp [processDoc, hr, h1]
  · intro hr h1 h2 h3; simp [processDoc, hr, h1, h2, h3]
  · intro hr h1 h2 h3 h4 hb
    constructor <;> simp [processDoc, hr, h1, h2, h3, h4, hb]
  · intro hr h1 h2 h3 h4 hb
    constructor <;> simp [processDoc, hr, h1, h2, h3, h4, hb]
  · intro hr h1 h2 h3 h4 hb
    constructor <;> simp [processDoc, hr, h1, h2, h3, h4, hb]
  · intro hf
    cases hpd : processDoc b store d with
    | mk o s2 =>
      rw [hpd] at hf
      obtain ⟨store2, tr⟩ := s2
      simp only at hf
      subst hf
      simp [ingestLoop, hpd]

/-- C8 at concrete inputs: an unreadable file fails and the loop
continues; an insert accepted without returned data fails with the store
unchanged. -/
theorem claim_C8_error_isolation_witness :
    processDoc benign [] ⟨"b.html", .ioError⟩ = (.failed, [], []) ∧
    ((processDoc ⟨false, false, .noData⟩ [] wDoc).1 = .failed ∧
      (processDoc ⟨false, false, .noData⟩ [] wDoc).2.1 = []) ∧
    ingestLoop ⟨0, 0, 0⟩ [] [(⟨"b.html", .ioError⟩, benign), (wDoc, benign)] =
      ingestLoop ⟨0, 0, 1⟩ [] [(wDoc, benign)] := by
  refine ⟨?_, ?_, ?_⟩
  · exact (claim_C8_error_isolation benign [] ⟨"b.html", .ioError⟩ wSoup "" []
      ⟨0, 0, 0⟩).1 rfl
  · exact (claim_C8_error_isolation ⟨false, false, .noData⟩ [] wDoc wSoup
      "<html>raw</html>" [] ⟨0, 0, 0⟩).2.2.2.2.1 rfl rfl (by decide) rfl
      (by decide) rfl
  · exact (claim_C8_error_isolation benign [] ⟨"b.html", .ioError⟩ wSoup ""
      [(wDoc, benign)] ⟨0, 0, 0⟩).2.2.2.2.2.2 rfl

/-! ## C7 — batch counter invariant -/

/-- A duplicate-at-start document is skipped. -/
theorem processDoc_skipped_of_dup (b : DocBehavior)
    (store : List ArticleRecord) (d : Doc)
    (h : dupAtStart store (d, b) = true) :
    (processDoc b store d).1 = .skipped := by
  unfold dupAtStart at h
  cases hr : d.read with
  | ioError => rw [hr] at h; simp at h
  | ok soup raw =>
    rw [hr] at h
    simp only [Bool.and_eq_true, Bool.not_eq_true'] at h
    obtain ⟨h1, h2⟩ := h
    simp [processDoc, hr, h1, h2]

/-- An unreadable document is failed. -/
theorem processDoc_failed_of_unreadable (b : DocBehavior)
    (store : List ArticleRecord) (d : Doc) (h : d.read = .ioError) :
    (processDoc b store d).1 = .failed := by
  simp [processDoc, h]

/-- Duplicate-at-start is monotone under store growth. -/
theorem dupAtStart_mono (store ext : List ArticleRecord)
    (x : Doc × DocBehavior) (h : dupAtStart store x = true) :
    dupAtStart (store ++ ext) x = true := by
  unfold dupAtStart at h ⊢
  cases hr : x.1.read with
  | ioError => rw [hr] at h; simp at h
  | ok soup raw =>
    rw [hr] at h
    simp only [Bool.and_eq_true, Bool.not_eq_true'] at h ⊢
    exact ⟨h.1, hashExists_mono store ext _ h.2⟩

/-- The skipped counter dominates the number of duplicates-at-start. -/
theorem runBatch_skipped_ge (docs : List (Doc × DocBehavior)) :
    ∀ store : List ArticleRecord,
      (docs.filter (dupAtStart store)).length ≤ (runBatch store docs).1.skipped := by
  induction docs with
  | nil => intro store; simp [runBatch]
  | cons x rest ih =>
    intro store
    obtain ⟨d, b⟩ := x
    cases hpd : processDoc b store d with
    | mk o s2 =>
      obtain ⟨store2, tr⟩ := s2
      obtain ⟨ext, hext⟩ := processDoc_store_ext b store d
      rw [hpd] at hext
      simp only at hext
      have hmono : (rest.filter (dupAtStart store)).length ≤
          (rest.filter (dupAtStart store2)).length := by
        subst hext
        simp only [← List.countP_eq_length_filter]
        exact List.countP_mono_left (fun a _ ha => dupAtStart_mono store ext a ha)
      have htail := ih store2
      by_cases hd : dupAtStart store (d, b) = true
      · have hskip := processDoc_skipped_of_dup b store d hd
        rw [hpd] at hskip
        simp only at hskip
        subst hskip
        simp only [runBatch, hpd, List.filter_cons, hd, if_true, List.length_cons]
        omega
      · rw [Bool.not_eq_true] at hd
        simp only [runBatch, hpd, List.filter_cons, hd]
        cases o <;> simp <;> omega

/-- The failed counter dominates the number of unreadable documents. -/
theorem runBatch_failed_ge (docs : List (Doc × DocBehavior)) :
    ∀ store : List ArticleRecord,
      (docs.filter isUnreadable).length ≤ (runBatch store docs).1.failed := by
  induction docs with
  | nil => intro store; simp [runBatch]
  | cons x rest ih =>
    intro store
    obtain ⟨d, b⟩ := x
    cases hpd : processDoc b store d with
    | mk o s2 =>
      obtain ⟨store2, tr⟩ := s2
      have htail := ih store2
      by_cases hu : isUnreadable (d, b) = true
      · have hr : d.read = .ioError := by
          unfold isUnreadable at hu
          cases hr : d.read with
          | ioError => rfl
          | ok soup raw => rw [hr] at hu; simp at hu
        have hfail := processDoc_failed_of_unreadable b store d hr
        rw [hpd] at hfail
        simp only at hfail
        subst hfail
        simp only [runBatch, hpd, List.filter_cons, hu, if_true, List.length_cons]
        omega
      · rw [Bool.not_eq_true] at hu
        simp only [runBatch, hpd, List.filter_cons, hu]
        cases o <;> simp <;> omega

/-- C7: every document bumps exactly one counter, so the final counters
sum to the number of enumerated documents; the skipped counter is at
least the number of exact duplicates of already-stored content, and the
failed counter at least the number of unreadable documents. -/
theorem claim_C7_batch_counters (store : List ArticleRecord)
    (docs : List (Doc × DocBehavior)) :
    (ingestLoop ⟨0, 0, 0⟩ store docs).1.successful +
        (ingestLoop ⟨0, 0, 0⟩ store docs).1.skipped +
        (ingestLoop ⟨0, 0, 0⟩ store docs).1.failed = docs.length ∧
    (docs.filter (dupAtStart store)).length ≤
      (ingestLoop ⟨0, 0, 0⟩ store docs).1.skipped ∧
    (docs.filter isUnreadable).length ≤
      (ingestLoop ⟨0, 0, 0⟩ store docs).1.failed := by
  have h := ingestLoop_eq_runBatch docs ⟨0, 0, 0⟩ store
  have hsum := runBatch_sum docs store
  have hskip := runBatch_skipped_ge docs store
  have hfail := runBatch_failed_ge docs store
  rw [h]
  simp only
  refine ⟨by omega, by omega, by omega⟩

/-! ## C3 — the content hash -/

/-- `beBytes` always produces the requested width. -/
theorem beBytes_length (k : Nat) : ∀ n : Nat, (beBytes k n).length = k := by
  induction k with
  | zero => intro n; rfl
  | succ k ih => intro n; simp [beBytes, ih]

/-- One compression step preserves the eight-word shape. -/
theorem shaCompress_length (hs block : List Nat) :
    (shaCompress hs block).length = 8 := rfl

/-- Folding compression over any block list preserves the shape. -/
theorem foldl_shaCompress_length (chunks : List (List Nat)) :
    ∀ hs : List Nat, hs.length = 8 →
      (chunks.foldl shaCompress hs).length = 8 := by
  induction chunks with
  | nil => intro hs h; exact h
  | cons c rest ih => intro hs h; exact ih _ (shaCompress_length _ _)

/-- Length of a flat map with constant-length pieces. -/
theorem flatMap_const_length {α β : Type} (f : α → List β) (k : Nat)
    (hf : ∀ x, (f x).length = k) (l : List α) :
    (l.flatMap f).length = k * l.length := by
  induction l with
  | nil => simp
  | cons x rest ih =>
    simp only [List.flatMap_cons, List.length_append, hf, ih, List.length_cons]
    ring

/-- The digest is always 32 bytes — 256 bits. -/
theorem sha256Bytes_length (msg : List Nat) : (sha256Bytes msg).length = 32 := by
  unfold sha256Bytes
  rw [flatMap_const_length (beBytes 4) 4 (fun x => beBytes_length 4 x)]
  rw [foldl_shaCompress_length (chunks64 (shaPad msg)) shaH0 rfl]

/-- The hex digest is always 64 characters. -/
theorem sha256Hex_length (msg : List Nat) : (sha256Hex msg).length = 64 := by
  show ((sha256Bytes msg).flatMap hexByte).length = 64
  rw [flatMap_const_length hexByte 2 (fun b => rfl), sha256Bytes_length]

/-- The `content_hash` field is computed from the `cleaned_text` field. -/
theorem content_hash_eq (soup : Node) (raw fn : String) :
    (extract_article_data soup raw fn).content_hash =
      sha256Hex (utf8Encode (extract_article_data soup raw fn).cleaned_text) := rfl

/-- The implementation reproduces the NIST FIPS 180-4 test vector for the
one-block message "abc". -/
theorem sha256Hex_abc :
    sha256Hex (utf8Encode "abc") =
      "ba7816bf8f01cfea414140de5dae2223b00361a396177a9cb410ff61f20015ad" := by
  decide

/-- C3: `content_hash` is the hex-encoded 256-bit SHA-256 digest of the
UTF-8 bytes of the normalized cleaned text, and a pure function of
`cleaned_text` alone: any two inputs with byte-identical cleaned texts
receive the same hash, whatever their raw markup, raw string or label. -/
theorem claim_C3_content_hash (s1 : Node) (r1 f1 : String) (s2 : Node)
    (r2 f2 : String) (soup : Node) (raw fn : String) :
    ((extract_article_data s1 r1 f1).cleaned_text =
        (extract_article_data s2 r2 f2).cleaned_text →
      (extract_article_data s1 r1 f1).content_hash =
        (extract_article_data s2 r2 f2).content_hash) ∧
    (extract_article_data soup raw fn).content_hash =
      sha256Hex (utf8Encode (extract_article_data soup raw fn).cleaned_text) ∧
    (extract_article_data soup raw fn).content_hash.length = 64 := by
  refine ⟨?_, content_hash_eq soup raw fn, ?_⟩
  · intro h
    rw [content_hash_eq, content_hash_eq, h]
  · rw [content_hash_eq]
    exact sha256Hex_length _

/-- C3 at concrete inputs: equal cleaned texts force equal hashes across
markup variants. -/
theorem claim_C3_content_hash_witness :
    (extract_article_data c3SoupA "rawA" "a.html").content_hash =
      (extract_article_data c3SoupB "rawB" "b.html").content_hash :=
  (claim_C3_content_hash c3SoupA "rawA" "a.html" c3SoupB "rawB" "b.html"
    c3SoupA "rawA" "a.html").1 (by decide)

/-! ## C4 — extractor totality and fallbacks -/

/-- C4: `extract_article_data` is a total function of the parsed document
(so it returns a record on every input and never raises); each absent
optional element degrades to its fallback — label-derived title, null
date, empty canonical URL, whole-document text extraction — and the empty
input produces the empty/default record (empty cleaned text, zero words,
the digest of the empty byte string). -/
theorem claim_C4_totality (soup : Node) (raw fn : String) :
    (findDesc (isTagB "title") soup = none →
      (extract_article_data soup raw fn).title = fallbackTitle fn) ∧
    (findDesc isTimeWithDatetime soup = none →
      (extract_article_data soup raw fn).publication_date = none) ∧
    (findDesc isCanonicalLink soup = none →
      (extract_article_data soup raw fn).canonical_url = some "") ∧
    (findDesc isEntryContentDiv soup = none →
      findDesc (isTagB "article") soup = none →
      (extract_article_data soup raw fn).cleaned_text =
        cleanBody (getTextSepStrip soup)) ∧
    (extract_article_data emptyDoc raw fn).title = fallbackTitle fn ∧
    (extract_article_data emptyDoc raw fn).publication_date = none ∧
    (extract_article_data emptyDoc raw fn).cleaned_text = "" ∧
    (extract_article_data emptyDoc raw fn).canonical_url = some "" ∧
    (extract_article_data emptyDoc raw fn).word_count = 0 ∧
    (extract_article_data emptyDoc raw fn).raw_html = raw ∧
    (extract_article_data emptyDoc raw fn).content_hash =
      "e3b0c44298fc1c149afbf4c8996fb92427ae41e4649b934ca495991b7852b855" := by
  refine ⟨?_, ?_, ?_, ?_, rfl, rfl, rfl, rfl, rfl, rfl, ?_⟩
  · intro h; simp [extract_article_data, h]
  · intro h; simp [extract_article_data, h]
  · intro h; simp [extract_article_data, h]
  · intro h1 h2; simp [extract_article_data, h1, h2]
  · show sha256Hex (utf8Encode "") =
      "e3b0c44298fc1c149afbf4c8996fb92427ae41e4649b934ca495991b7852b855"
    decide

/-- C4 at concrete inputs: garbage markup degrades through every
fallback. -/
theorem claim_C4_totality_witness :
    (extract_article_data c4Soup "garbage" "g.html").title =
      fallbackTitle "g.html" ∧
    (extract_article_data c4Soup "garbage" "g.html").publication_date = none ∧
    (extract_article_data c4Soup "garbage" "g.html").canonical_url = some "" ∧
    (extract_article_data c4Soup "garbage" "g.html").cleaned_text =
      cleanBody (getTextSepStrip c4Soup) := by
  refine ⟨?_, ?_, ?_, ?_⟩
  · exact (claim_C4_totality c4Soup "garbage" "g.html").1 rfl
  · exact (claim_C4_totality c4Soup "garbage" "g.html").2.1 rfl
  · exact (claim_C4_totality c4Soup "garbage" "g.html").2.2.1 rfl
  · exact (claim_C4_totality c4Soup "garbage" "g.html").2.2.2.1 rfl rfl

/-! ## C5 — title resolution -/

/-- `rdropWhile` keeps the head when not everything satisfies the
predicate. -/
theorem rdropWhile_cons_keep {α : Type} (p : α → Bool) (c : α) (l : List α)
    (h : (c :: l).all p = false) :
    (c :: l).rdropWhile p = c :: l.rdropWhile p := by
  unfold List.rdropWhile
  rw [List.reverse_cons, List.dropWhile_append]
  by_cases hl : l.all p = true
  · have hc : p c = false := by
      rw [List.all_cons, hl, Bool.and_true] at h
      exact h
    have hrev : l.reverse.dropWhile p = [] :=
      List.dropWhile_eq_nil_iff.mpr
        (fun x hx => List.all_eq_true.mp hl x (List.mem_reverse.mp hx))
    rw [hrev]
    simp [hc]
  · have hne : l.reverse.dropWhile p ≠ [] := by
      intro h0
      exact hl (List.all_eq_true.mpr
        (fun x hx => List.dropWhile_eq_nil_iff.mp h0 x (List.mem_reverse.mpr hx)))
    rw [if_neg (by simpa [List.isEmpty_eq_false] using hne)]
    rw [List.reverse_append]
    simp

/-- Dropping whitespace from the left and from the right commute. -/
theorem dropWhile_rdropWhile_comm {α : Type} (p : α → Bool) (l : List α) :
    (l.rdropWhile p).dropWhile p = (l.dropWhile p).rdropWhile p := by
  induction l using List.reverseRecOn with
  | nil => simp
  | append_singleton xs x ih =>
    by_cases hx : p x = true
    · rw [List.rdropWhile_concat_pos p xs x hx, ih, List.dropWhile_append]
      cases hxs : xs.dropWhile p with
      | nil => simp [hx]
      | cons a t =>
        simp only [List.isEmpty_cons, if_false, Bool.false_eq_true]
        rw [List.rdropWhile_concat_pos p (a :: t) x hx]
    · rw [List.rdropWhile_concat_neg p xs x hx, List.dropWhile_append]
      cases hxs : xs.dropWhile p with
      | nil => simp [hx, List.rdropWhile_singleton]
      | cons a t =>
        simp only [List.isEmpty_cons, if_false, Bool.false_eq_true]
        rw [List.rdropWhile_concat_neg p (a :: t) x hx]

/-- Prepending dash-free text shifts the end-anchored pattern: the
combined text matches exactly when the prefix is blank and the rest
matches. -/
theorem spm_append (l m : List Char)
    (hdf : l.all (fun c => !isDashChar c) = true) :
    suffixPatMatches (l ++ m) = (l.all pyIsSpace && suffixPatMatches m) := by
  by_cases hws : l.all pyIsSpace = true
  · have hnil : l.dropWhile pyIsSpace = [] :=
      List.dropWhile_eq_nil_iff.mpr (fun x hx => List.all_eq_true.mp hws x hx)
    unfold suffixPatMatches
    rw [List.dropWhile_append, hnil]
    simp [hws]
  · have hne : l.dropWhile pyIsSpace ≠ [] := by
      intro h0
      exact hws (List.all_eq_true.mpr
        (fun x hx => List.dropWhile_eq_nil_iff.mp h0 x hx))
    unfold suffixPatMatches
    rw [List.dropWhile_append,
      if_neg (by simpa [List.isEmpty_eq_false] using hne)]
    obtain ⟨c0, tl, hl⟩ : ∃ c0 tl, l.dropWhile pyIsSpace = c0 :: tl := by
      cases hl : l.dropWhile pyIsSpace with
      | nil => exact absurd hl hne
      | cons a t => exact ⟨a, t, rfl⟩
    have hc0mem : c0 ∈ l :=
      (List.dropWhile_suffix pyIsSpace).subset (by rw [hl]; simp)
    have hc0 : c0 ≠ '–' ∧ c0 ≠ '-' := by
      simpa [isDashChar] using List.all_eq_true.mp hdf c0 hc0mem
    have h1 : (c0 == '–') = false := beq_eq_false_iff_ne.mpr hc0.1
    have h2 : (c0 == '-') = false := beq_eq_false_iff_ne.mpr hc0.2
    have hwsf : l.all pyIsSpace = false := by simpa using hws
    rw [hl]
    simp only [List.cons_append, spmCore, h1, h2, hwsf]
    simp

/-- Deleting the end-anchored pattern from dash-free text followed by a
matching tail removes the tail and the blank run before it. -/
theorem delSuffixPat_strip (m : List Char) (hm : suffixPatMatches m = true) :
    ∀ l : List Char, l.all (fun c => !isDashChar c) = true →
      delSuffixPat (l ++ m) = l.rdropWhile pyIsSpace := by
  intro l
  induction l with
  | nil =>
    intro _
    cases hmm : m with
    | nil =>
      rw [hmm] at hm
      simp [suffixPatMatches, spmCore] at hm
    | cons c rest =>
      rw [hmm] at hm
      simp only [List.nil_append, List.rdropWhile_nil, hmm]
      simp [delSuffixPat, hm]
  | cons c l' ih =>
    intro hdf
    have hdfc := hdf
    rw [List.all_cons, Bool.and_eq_true] at hdfc
    obtain ⟨hc, hdf'⟩ := hdfc
    have hcond : suffixPatMatches (c :: (l' ++ m)) = (c :: l').all pyIsSpace := by
      have := spm_append (c :: l') m hdf
      rw [hm, Bool.and_true] at this
      simpa [List.cons_append] using this
    by_cases hws : (c :: l').all pyIsSpace = true
    · have hdel : delSuffixPat ((c :: l') ++ m) = [] := by
        simp only [List.cons_append, delSuffixPat, List.append_eq]
        rw [hcond, hws]
        simp
      rw [hdel]
      exact (List.rdropWhile_eq_nil_iff.mpr
        (fun x hx => List.all_eq_true.mp hws x hx)).symm
    · have hwsf : (c :: l').all pyIsSpace = false := by simpa using hws
      have hdel : delSuffixPat ((c :: l') ++ m) = c :: delSuffixPat (l' ++ m) := by
        simp only [List.cons_append, delSuffixPat, List.append_eq]
        rw [hcond, hwsf]
        simp
      rw [hdel, ih hdf', rdropWhile_cons_keep pyIsSpace c l' hwsf]

/-- When the tail never matches the end-anchored pattern (and deletes
nothing on its own), prepending dash-free text still deletes nothing. -/
theorem delSuffixPat_id (m : List Char) (hm : suffixPatMatches m = false)
    (hdel : delSuffixPat m = m) :
    ∀ l : List Char, l.all (fun c => !isDashChar c) = true →
      delSuffixPat (l ++ m) = l ++ m := by
  intro l
  induction l with
  | nil => intro _; simpa using hdel
  | cons c l' ih =>
    intro hdf
    have hdf' : l'.all (fun c => !isDashChar c) = true := by
      rw [List.all_cons, Bool.and_eq_true] at hdf
      exact hdf.2
    rw [List.all_cons, Bool.and_eq_true] at hdf
    have hdfall : (c :: l').all (fun c => !isDashChar c) = true := by
      rw [List.all_cons, Bool.and_eq_true]
      exact hdf
    have hcond : suffixPatMatches (c :: (l' ++ m)) = false := by
      have := spm_append (c :: l') m hdfall
      rw [hm, Bool.and_false] at this
      simpa [List.cons_append] using this
    have hdel2 : delSuffixPat ((c :: l') ++ m) = c :: delSuffixPat (l' ++ m) := by
      simp only [List.cons_append, delSuffixPat, List.append_eq]
      rw [hcond]
      simp
    rw [hdel2, ih hdf']
    simp

/-- The title cleanup on dash-free core text: the attribution suffix is
stripped with an en dash or a hyphen, is not stripped when its letters
are lowercased (the pattern is case-sensitive), and is a no-op plus
`strip()` when absent. -/
theorem cleanTitle_cases (core : String) (hdf : dashFree core = true) :
    cleanTitle (core ++ " – Stratechery by Ben Thompson") = pyStrip core ∧
    cleanTitle (core ++ " - Stratechery by Ben Thompson") = pyStrip core ∧
    cleanTitle (core ++ " – stratechery by ben thompson") =
      pyStrip (core ++ " – stratechery by ben thompson") ∧
    cleanTitle core = pyStrip core := by
  have hdf' : core.data.all (fun c => !isDashChar c) = true := hdf
  have hstrip : ∀ sfx : String, suffixPatMatches sfx.data = true →
      cleanTitle (core ++ sfx) = pyStrip core := by
    intro sfx hm
    unfold cleanTitle
    rw [String.data_append, delSuffixPat_strip sfx.data hm core.data hdf']
    unfold pyStrip pyStripL
    show String.mk
        (((core.data.rdropWhile pyIsSpace).dropWhile pyIsSpace).rdropWhile
          pyIsSpace) =
      String.mk ((core.data.dropWhile pyIsSpace).rdropWhile pyIsSpace)
    rw [dropWhile_rdropWhile_comm, List.rdropWhile_idempotent]
  have hid : ∀ sfx : String, suffixPatMatches sfx.data = false →
      delSuffixPat sfx.data = sfx.data →
      cleanTitle (core ++ sfx) = pyStrip (core ++ sfx) := by
    intro sfx hm hdel
    unfold cleanTitle
    rw [String.data_append, delSuffixPat_id sfx.data hm hdel core.data hdf']
    rfl
  refine ⟨hstrip _ (by decide), hstrip _ (by decide), hid _ (by decide) (by decide), ?_⟩
  · have := hid "" (by decide) (by decide)
    simpa using this

/-- C5 fails as stated: the spec's case-insensitive rule would reduce the
lowercased attribution to "X", but the code's pattern carries no
IGNORECASE flag, so the extractor keeps the suffix. -/
theorem claim_C5_counterexample :
    specTitleStrip "X – stratechery by ben thompson" = "X" ∧
    (extract_article_data c5Soup "" "f.html").title =
      "X – stratechery by ben thompson" ∧
    (extract_article_data c5Soup "" "f.html").title ≠
      specTitleStrip "X – stratechery by ben thompson" := by
  refine ⟨by decide, by decide, by decide⟩

/-- C5 (amended): when a title element exists, the record's title is the
element's text with the trailing attribution stripped
case-sensitively but dash-insensitively (en dash or hyphen, with
surrounding whitespace absorbed) and then trimmed — a lowercased
attribution is kept; the spec's example still yields "Antitrust in 2024";
without a title element the title is the label with every occurrence of
".html" and of the exact en-dash attribution text removed. -/
theorem claim_C5_title_resolution (soup : Node) (raw fn : String)
    (tEl : Node) (core : String)
    (htitle : findDesc (isTagB "title") soup = some tEl)
    (hdf : dashFree core = true) :
    (extract_article_data soup raw fn).title = cleanTitle (getTextPlain tEl) ∧
    cleanTitle (core ++ " – Stratechery by Ben Thompson") = pyStrip core ∧
    cleanTitle (core ++ " - Stratechery by Ben Thompson") = pyStrip core ∧
    cleanTitle (core ++ " – stratechery by ben thompson") =
      pyStrip (core ++ " – stratechery by ben thompson") ∧
    cleanTitle "Antitrust in 2024 – Stratechery by Ben Thompson" =
      "Antitrust in 2024" ∧
    (∀ soup2 : Node, findDesc (isTagB "title") soup2 = none →
      (extract_article_data soup2 raw fn).title = fallbackTitle fn) := by
  obtain ⟨h1, h2, h3, _⟩ := cleanTitle_cases core hdf
  refine ⟨?_, h1, h2, h3, by decide, ?_⟩
  · simp [extract_article_data, htitle]
  · intro soup2 h
    simp [extract_article_data, h]

/-- C5 at the spec's example title. -/
theorem claim_C5_title_resolution_witness :
    cleanTitle ("Antitrust in 2024" ++ " – Stratechery by Ben Thompson") =
      pyStrip "Antitrust in 2024" ∧
    (extract_article_data c5TitleSoup "" "a.html").title =
      cleanTitle (getTextPlain (.elem "title" []
        [.text "Antitrust in 2024 – Stratechery by Ben Thompson"])) :=
  ⟨(claim_C5_title_resolution c5TitleSoup "" "a.html"
      (.elem "title" [] [.text "Antitrust in 2024 – Stratechery by Ben Thompson"])
      "Antitrust in 2024" rfl (by decide)).2.1,
   (claim_C5_title_resolution c5TitleSoup "" "a.html"
      (.elem "title" [] [.text "Antitrust in 2024 – Stratechery by Ben Thompson"])
      "Antitrust in 2024" rfl (by decide)).1⟩

/-! ## C6 — text normalization -/

/-- The empty pattern occurs everywhere. -/
theorem hasSub_nil_pat (l : List Char) : hasSub [] l = true := by
  cases l <;> simp [hasSub, List.isPrefixOf]

/-- An occurrence on the left survives an append. -/
theorem hasSub_of_left (pat s t : List Char) (h : hasSub pat s = true) :
    hasSub pat (s ++ t) = true := by
  induction s with
  | nil =>
    have hp : pat = [] := by
      cases hp : pat with
      | nil => rfl
      | cons a as => rw [hp] at h; simp [hasSub, List.isPrefixOf] at h
    rw [hp]
    exact hasSub_nil_pat t
  | cons c s' ih =>
    simp only [hasSub, Bool.or_eq_true] at h
    rcases h with h | h
    · have hpre : pat <+: c :: s' := by
        simpa using List.isPrefixOf_iff_prefix.mp h
      have hlong : pat <+: c :: (s' ++ t) := by
        have := hpre.trans (List.prefix_append (c :: s') t)
        simpa [List.cons_append] using this
      have hfin : List.isPrefixOf pat (c :: (s' ++ t)) = true := by
        rw [List.isPrefixOf_iff_prefix]
        exact hlong
      simp only [List.cons_append, hasSub, Bool.or_eq_true]
      exact Or.inl hfin
    · simp only [List.cons_append, hasSub, Bool.or_eq_true]
      exact Or.inr (ih h)

/-- An occurrence on the right survives an append. -/
theorem hasSub_of_right (pat s t : List Char) (h : hasSub pat t = true) :
    hasSub pat (s ++ t) = true := by
  induction s with
  | nil => simpa using h
  | cons c s' ih =>
    simp only [List.cons_append, hasSub, Bool.or_eq_true]
    exact Or.inr ih

/-- The collapsed tail of a pending run holds at most two newlines. -/
theorem hasSub3_emitNL (k : Nat) : hasSub ['\n', '\n', '\n'] (emitNL k) = false := by
  match k with
  | 0 => decide
  | 1 => decide
  | 2 => decide
  | k + 3 =>
    rw [emitNL, if_pos (Nat.le_add_left 3 k)]
    decide

/-- The three shapes a pending run can collapse to. -/
theorem emitNL_shape (k : Nat) :
    emitNL k = [] ∨ emitNL k = ['\n'] ∨ emitNL k = ['\n', '\n'] := by
  match k with
  | 0 => exact Or.inl rfl
  | 1 => exact Or.inr (Or.inl rfl)
  | 2 => exact Or.inr (Or.inr rfl)
  | k + 3 =>
    rw [emitNL, if_pos (Nat.le_add_left 3 k)]
    exact Or.inr (Or.inr rfl)

/-- No triple newline begins at a non-newline character. -/
theorem hasSub3_cons_ne (c : Char) (X : List Char) (hc : (c == '\n') = false)
    (hX : hasSub ['\n', '\n', '\n'] X = false) :
    hasSub ['\n', '\n', '\n'] (c :: X) = false := by
  have hc' : ('\n' == c) = false :=
    beq_eq_false_iff_ne.mpr (Ne.symm (beq_eq_false_iff_ne.mp hc))
  simp [hasSub, List.isPrefixOf, hc', hX]

/-- The output of the newline-collapsing scan never contains three
consecutive newlines, whatever run length is pending. -/
theorem collapse_no_triple (l : List Char) :
    ∀ k, hasSub ['\n', '\n', '\n'] (collapseNLAux k l) = false := by
  induction l with
  | nil => intro k; exact hasSub3_emitNL k
  | cons c rest ih =>
    intro k
    by_cases hc : (c == '\n') = true
    · simp only [collapseNLAux, hc, if_true]
      exact ih (k + 1)
    · have hcf : (c == '\n') = false := by simpa using hc
      simp only [collapseNLAux, hcf, Bool.false_eq_true, if_false]
      have h1 : hasSub ['\n', '\n', '\n'] (c :: collapseNLAux 0 rest) = false :=
        hasSub3_cons_ne c _ hcf (ih 0)
      have hnl : ('\n' == c) = false :=
        beq_eq_false_iff_ne.mpr (Ne.symm (beq_eq_false_iff_ne.mp hcf))
      rcases emitNL_shape k with h | h | h <;> rw [h]
      · simpa using h1
      · simp [hasSub, List.isPrefixOf, hnl, h1, ih 0]
      · simp [hasSub, List.isPrefixOf, hnl, h1, ih 0]

/-- Truncation at the marker produces a prefix of its input. -/
theorem truncShare_pref : ∀ l : List Char, truncShare l <+: l := by
  intro l
  induction l with
  | nil => exact List.nil_prefix
  | cons c rest ih =>
    by_cases h : ciIsPrefix shareLit (c :: rest) = true
    · simp only [truncShare, h, if_true]
      exact List.nil_prefix
    · have hf : ciIsPrefix shareLit (c :: rest) = false := by simpa using h
      simp only [truncShare, hf, Bool.false_eq_true, if_false]
      rw [List.cons_prefix_cons]
      exact ⟨rfl, ih⟩

/-- A case-insensitive prefix match transfers along list prefixes. -/
theorem ciIsPrefix_of_pref (pat : List Char) :
    ∀ l1 l2 : List Char, l1 <+: l2 → ciIsPrefix pat l1 = true →
      ciIsPrefix pat l2 = true := by
  induction pat with
  | nil => intro l1 l2 hp h; rfl
  | cons p ps ih =>
    intro l1 l2 hp h
    cases l1 with
    | nil => simp [ciIsPrefix] at h
    | cons a as =>
      cases l2 with
      | nil =>
        have := List.IsPrefix.length_le hp
        simp at this
      | cons b bs =>
        rw [List.cons_prefix_cons] at hp
        obtain ⟨hab, htail⟩ := hp
        subst hab
        simp only [ciIsPrefix, Bool.and_eq_true] at h ⊢
        exact ⟨h.1, ih as bs htail h.2⟩

/-- A case-insensitive occurrence on the left survives an append. -/
theorem ciHasSub_of_left (pat s t : List Char) (h : ciHasSub pat s = true) :
    ciHasSub pat (s ++ t) = true := by
  induction s with
  | nil =>
    have hp : pat = [] := by
      cases hp : pat with
      | nil => rfl
      | cons a as => rw [hp] at h; simp [ciHasSub, ciIsPrefix] at h
    subst hp
    cases t <;> simp [ciHasSub, ciIsPrefix]
  | cons c s' ih =>
    simp only [ciHasSub, Bool.or_eq_true] at h
    rcases h with h | h
    · simp only [List.cons_append, ciHasSub, Bool.or_eq_true]
      exact Or.inl (ciIsPrefix_of_pref pat (c :: s') (c :: (s' ++ t))
        (by rw [List.cons_prefix_cons]; exact ⟨rfl, List.prefix_append s' t⟩) h)
    · simp only [List.cons_append, ciHasSub, Bool.or_eq_true]
      exact Or.inr (ih h)

/-- A case-insensitive occurrence on the right survives an append. -/
theorem ciHasSub_of_right (pat s t : List Char) (h : ciHasSub pat t = true) :
    ciHasSub pat (s ++ t) = true := by
  induction s with
  | nil => simpa using h
  | cons c s' ih =>
    simp only [List.cons_append, ciHasSub, Bool.or_eq_true]
    exact Or.inr ih

/-- After truncation, no case-insensitive occurrence of the footer marker
remains. -/
theorem truncShare_no_marker : ∀ l : List Char,
    ciHasSub shareLit (truncShare l) = false := by
  intro l
  induction l with
  | nil => decide
  | cons c rest ih =>
    by_cases h : ciIsPrefix shareLit (c :: rest) = true
    · simp only [truncShare, h, if_true]
      decide
    · have hf : ciIsPrefix shareLit (c :: rest) = false := by simpa using h
      simp only [truncShare, hf, Bool.false_eq_true, if_false]
      simp only [ciHasSub, Bool.or_eq_false_iff]
      refine ⟨?_, ih⟩
      by_contra hx
      rw [Bool.not_eq_false] at hx
      have : ciIsPrefix shareLit (c :: rest) = true :=
        ciIsPrefix_of_pref shareLit (c :: truncShare rest) (c :: rest)
          (by rw [List.cons_prefix_cons]; exact ⟨rfl, truncShare_pref rest⟩) hx
      exact absurd this h

/-- Occurrence-freedom transfers from a list to its `strip()`. -/
theorem hasSub_pyStripL (pat l : List Char) (h : hasSub pat l = false) :
    hasSub pat (pyStripL l) = false := by
  unfold pyStripL
  obtain ⟨a, ha⟩ : ∃ a, a ++ l.dropWhile pyIsSpace = l :=
    List.dropWhile_suffix pyIsSpace
  have hD : hasSub pat (l.dropWhile pyIsSpace) = false := by
    by_contra hx
    rw [Bool.not_eq_false] at hx
    have := hasSub_of_right pat a _ hx
    rw [ha, h] at this
    cases this
  obtain ⟨b, hb⟩ : ∃ b, (l.dropWhile pyIsSpace).rdropWhile pyIsSpace ++ b =
      l.dropWhile pyIsSpace := List.rdropWhile_prefix pyIsSpace _
  by_contra hx
  rw [Bool.not_eq_false] at hx
  have := hasSub_of_left pat _ b hx
  rw [hb, hD] at this
  cases this

/-- Case-insensitive occurrence-freedom transfers to the `strip()`. -/
theorem ciHasSub_pyStripL (pat l : List Char) (h : ciHasSub pat l = false) :
    ciHasSub pat (pyStripL l) = false := by
  unfold pyStripL
  obtain ⟨a, ha⟩ : ∃ a, a ++ l.dropWhile pyIsSpace = l :=
    List.dropWhile_suffix pyIsSpace
  have hD : ciHasSub pat (l.dropWhile pyIsSpace) = false := by
    by_contra hx
    rw [Bool.not_eq_false] at hx
    have := ciHasSub_of_right pat a _ hx
    rw [ha, h] at this
    cases this
  obtain ⟨b, hb⟩ : ∃ b, (l.dropWhile pyIsSpace).rdropWhile pyIsSpace ++ b =
      l.dropWhile pyIsSpace := List.rdropWhile_prefix pyIsSpace _
  by_contra hx
  rw [Bool.not_eq_false] at hx
  have := ciHasSub_of_left pat _ b hx
  rw [hb, hD] at this
  cases this

/-- The cleaned body never retains three consecutive newlines. -/
theorem cleanBody_no_triple (s : String) :
    hasSub ['\n', '\n', '\n'] (cleanBody s).data = false := by
  show hasSub ['\n', '\n', '\n']
    (pyStripL (truncShare (collapseNL s.data))) = false
  apply hasSub_pyStripL
  have hX : hasSub ['\n', '\n', '\n'] (collapseNL s.data) = false :=
    collapse_no_triple s.data 0
  obtain ⟨t, ht⟩ : ∃ t, truncShare (collapseNL s.data) ++ t = collapseNL s.data :=
    truncShare_pref (collapseNL s.data)
  by_contra hx
  rw [Bool.not_eq_false] at hx
  have := hasSub_of_left ['\n', '\n', '\n'] _ t hx
  rw [ht, hX] at this
  cases this

/-- The cleaned body never retains a case-insensitive occurrence of the
footer marker. -/
theorem cleanBody_no_marker (s : String) :
    ciHasSub shareLit (cleanBody s).data = false := by
  show ciHasSub shareLit (pyStripL (truncShare (collapseNL s.data))) = false
  exact ciHasSub_pyStripL _ _ (truncShare_no_marker (collapseNL s.data))

/-- C6: the cleaned text is obtained by collapsing newline runs of three
or more to two, then truncating from the first case-insensitive
"share this:" through the end, then trimming — in that order; hence no
cleaned text contains three consecutive newlines or the marker; the
spec's example body reduces to its paragraph, and internal blank runs
collapse to one blank line. -/
theorem claim_C6_normalization (soup : Node) (raw fn : String) (art : Node)
    (hdiv : findDesc isEntryContentDiv soup = none)
    (hart : findDesc (isTagB "article") soup = some art) :
    (extract_article_data soup raw fn).cleaned_text =
      pyStrip (String.mk (truncShare (collapseNL (getTextSepStrip art).data))) ∧
    (∀ soup2 : Node,
      hasSub ['\n', '\n', '\n']
        (extract_article_data soup2 raw fn).cleaned_text.data = false) ∧
    (∀ soup2 : Node,
      ciHasSub shareLit
        (extract_article_data soup2 raw fn).cleaned_text.data = false) ∧
    (extract_article_data c6Soup "" "x.html").cleaned_text = "One paragraph." ∧
    cleanBody "One paragraph.\n\n\n\nShare this:\nTwitter\nFacebook" =
      "One paragraph." ∧
    cleanBody "P1\n\n\n\n\nP2" = "P1\n\nP2" := by
  refine ⟨?_, ?_, ?_, by decide, by decide, by decide⟩
  · simp [extract_article_data, hdiv, hart, cleanBody]
  · intro soup2
    exact cleanBody_no_triple _
  · intro soup2
    exact cleanBody_no_marker _

/-- C6 on the concrete article page. -/
theorem claim_C6_normalization_witness :
    (extract_article_data c6ArtSoup "" "x.html").cleaned_text =
      pyStrip (String.mk (truncShare (collapseNL (getTextSepStrip c6Art).data))) ∧
    (extract_article_data c6ArtSoup "" "x.html").cleaned_text = "A\n\nB" :=
  ⟨(claim_C6_normalization c6ArtSoup "" "x.html" c6Art rfl rfl).1,
   by decide⟩

/-! ## C10 — removal happens only in the entry-content branch -/

/-- C10 fails as stated: in the article fallback branch the style
element's text is not "included verbatim in cleaned_text" — BeautifulSoup's
`get_text` never treats script/style contents as text, so the fallback
keeps nav, aside and related-section text but not the style sheet. -/
theorem claim_C10_counterexample :
    (extract_article_data c10FallbackSoup "" "f.html").cleaned_text =
      "A\nN\nS\nR" ∧
    strHasSub (extract_article_data c10FallbackSoup "" "f.html").cleaned_text
      "hidden" = false := by
  refine ⟨by decide, by decide⟩

/-- C10 (amended): the script/style/nav/aside and related-content
removals are applied only when the entry-content container is found — the
fallback branches extract text with no removal, so nav, aside and
related-section text is included there (and influences word count and
hash), while script and style contents are excluded in every branch by
the text extraction itself. -/
theorem claim_C10_branch_removal (soup : Node) (raw fn : String)
    (dv art : Node) :
    (findDesc isEntryContentDiv soup = some dv →
      (extract_article_data soup raw fn).cleaned_text =
        cleanBody (getTextSepStrip
          (removeDesc isRelatedClass (removeDesc isUnwantedTag dv)))) ∧
    (findDesc isEntryContentDiv soup = none →
      findDesc (isTagB "article") soup = some art →
      (extract_article_data soup raw fn).cleaned_text =
        cleanBody (getTextSepStrip art)) ∧
    (findDesc isEntryContentDiv soup = none →
      findDesc (isTagB "article") soup = none →
      (extract_article_data soup raw fn).cleaned_text =
        cleanBody (getTextSepStrip soup)) ∧
    (extract_article_data c10FallbackSoup "" "f.html").cleaned_text =
      "A\nN\nS\nR" ∧
    (extract_article_data c10EntrySoup "" "f.html").cleaned_text = "A" ∧
    strHasSub (extract_article_data c10EntrySoup "" "f.html").cleaned_text
      "hidden" = false := by
  refine ⟨?_, ?_, ?_, by decide, by decide, by decide⟩
  · intro h; simp [extract_article_data, h]
  · intro h1 h2; simp [extract_article_data, h1, h2]
  · intro h1 h2; simp [extract_article_data, h1, h2]

/-- C10 on the two concrete pages. -/
theorem claim_C10_branch_removal_witness :
    (extract_article_data c10EntrySoup "" "f.html").cleaned_text =
      cleanBody (getTextSepStrip (removeDesc isRelatedClass
        (removeDesc isUnwantedTag c10Entry))) ∧
    (extract_article_data c10FallbackSoup "" "f.html").cleaned_text =
      cleanBody (getTextSepStrip c10Art) :=
  ⟨(claim_C10_branch_removal c10EntrySoup "" "f.html" c10Entry c10Art).1 rfl,
   (claim_C10_branch_removal c10FallbackSoup "" "f.html" c10Entry
      c10Art).2.1 rfl rfl⟩

end IngestPipeline
